import Mathlib

/-!
Verification of the flood-dashboard core: the timestep playback controller
(`FloodTimelineControl`) and the cable flow animation / junction derivation
engine (`app.jsx`).  Every definition below is a shallow embedding of the
corresponding JavaScript function; JS numbers are modelled as exact
rationals/reals, JS strings as `String`, nullable object fields as `Option`.
-/

/-! ### Timestep playback controller (FloodTimelineControl) -/

/-- A timestep entry `{ time, display }` as produced by the flood-folder
listing or the generated default grid. -/
structure Timestep where
  time : String
  display : String
deriving DecidableEq, Repr

/-- The React state of `FloodTimelineControl`: `isPlaying`, `currentTimestep`
(the current index), and whether an interval handle is held (`playInterval`
is a nullable handle in the source; only its presence matters). -/
structure TimelineState where
  isPlaying : Bool
  currentTimestep : Nat
  playInterval : Bool
deriving DecidableEq, Repr

/-- The `setInterval` callback installed by `handlePlay`:
`setCurrentTimestep(prev => (prev + 1) % timesteps.length)`. -/
def advanceTimestep (len prev : Nat) : Nat :=
  (prev + 1) % len

/-- `handlePlay`: toggles play/pause.  When playing it stops (clearing the
interval); when idle it starts playing and installs the interval whose tick
is `advanceTimestep`. -/
def handlePlay (s : TimelineState) : TimelineState :=
  if s.isPlaying then
    { s with isPlaying := false, playInterval := false }
  else
    { s with isPlaying := true, playInterval := true }

/-- `handleTimestepClick(index)`: sets `currentTimestep` to `index`
unconditionally (the source performs no range check), and if playing,
pauses and clears the interval. -/
def handleTimestepClick (index : Nat) (s : TimelineState) : TimelineState :=
  if s.isPlaying then
    { isPlaying := false, currentTimestep := index, playInterval := false }
  else
    { s with currentTimestep := index }

/-- The notification effect: `onTimestepChange(timesteps[currentTimestep])`
is invoked only when `timesteps[currentTimestep]` is defined (non-undefined
guard in the source); the emitted value, if any, is the looked-up entry. -/
def notifyOf (timesteps : List Timestep) (current : Nat) : Option Timestep :=
  timesteps[current]?

/-- A concrete three-entry timestep sequence used for closed instances. -/
def exampleTimesteps : List Timestep :=
  [⟨"waterdepth_20221024_000000", "00:00"⟩,
   ⟨"waterdepth_20221024_003000", "00:30"⟩,
   ⟨"waterdepth_20221024_010000", "01:00"⟩]

/-- C1: with a non-empty sequence of length `len` and a valid start index
`i`, advancing `n` periodic ticks moves the index to `(i + n) % len`,
wrapping at the boundary. -/
theorem C1_playback_ticks_advance_mod (len i n : Nat)
    (hlen : 0 < len) (hi : i < len) :
    (advanceTimestep len)^[n] i = (i + n) % len := by
  induction n with
  | zero => simpa using (Nat.mod_eq_of_lt hi).symm
  | succ n ih =>
      rw [Function.iterate_succ_apply', ih, advanceTimestep,
        Nat.mod_add_mod, Nat.add_assoc]

/-- C1 witness: length 5, start 3, advance 4 ticks lands on index 2
(the boundary-wrapping example from the specification). -/
theorem C1_playback_ticks_advance_mod_witness :
    0 < 5 ∧ 3 < 5 ∧ (advanceTimestep 5)^[4] 3 = (3 + 4) % 5 :=
  ⟨by decide, by decide, C1_playback_ticks_advance_mod 5 3 4 (by decide) (by decide)⟩

/-- C7 counterexample: clicking index 7 while the (length-3) sequence holds
only indices 0..2 is not rejected: the state changes (the current index
becomes 7), contradicting "rejected silently, no state change". -/
theorem C7_out_of_range_click_counterexample :
    exampleTimesteps.length ≤ 7 ∧
      handleTimestepClick 7 ⟨false, 0, false⟩ ≠ ⟨false, 0, false⟩ := by
  constructor
  · decide
  · decide

/-- C7 amended: `handleTimestepClick` performs no range validation: any
index, in or out of range, is stored as the current index; playback is
paused (the interval cleared) when it was active; the handler is total so
no exception is raised; and for an out-of-range index the listener
notification is suppressed, because the guarded lookup of the current
entry yields nothing. -/
theorem C7_out_of_range_click_amended (ts : List Timestep)
    (s : TimelineState) (i : Nat) :
    (handleTimestepClick i s).currentTimestep = i ∧
      (handleTimestepClick i s).isPlaying = false ∧
      (s.isPlaying = true → (handleTimestepClick i s).playInterval = false) ∧
      (ts.length ≤ i → notifyOf ts i = none) := by
  refine ⟨?_, ?_, ?_, ?_⟩
  · unfold handleTimestepClick
    split <;> rfl
  · unfold handleTimestepClick
    split
    next h => rfl
    next h => simpa using h
  · intro hp
    unfold handleTimestepClick
    split
    next => rfl
    next h => exact absurd hp h
  · intro hlen
    exact List.getElem?_eq_none hlen

/-- C7 amended witness: clicking index 7 from the paused state at index 0
with the three-entry example sequence. -/
theorem C7_out_of_range_click_amended_witness :
    (handleTimestepClick 7 ⟨false, 0, false⟩).currentTimestep = 7 ∧
      (handleTimestepClick 7 ⟨false, 0, false⟩).isPlaying = false ∧
      ((false : Bool) = true → (handleTimestepClick 7 ⟨false, 0, false⟩).playInterval = false) ∧
      (exampleTimesteps.length ≤ 7 → notifyOf exampleTimesteps 7 = none) :=
  C7_out_of_range_click_amended exampleTimesteps ⟨false, 0, false⟩ 7

/-- C8: for a valid index `i` of a non-empty sequence, clicking it sets
the current index to `i`, a subsequent read of the current entry returns
exactly the `i`-th timestep, playback ends up paused (and the interval is
cleared when it was running), and the listener is notified with exactly
the `i`-th timestep. -/
theorem C8_select_index_reads_ith (ts : List Timestep) (s : TimelineState)
    (i : Nat) (hi : i < ts.length) :
    (handleTimestepClick i s).currentTimestep = i ∧
      ts[(handleTimestepClick i s).currentTimestep]? = some (ts.get ⟨i, hi⟩) ∧
      (handleTimestepClick i s).isPlaying = false ∧
      (s.isPlaying = true → (handleTimestepClick i s).playInterval = false) ∧
      notifyOf ts (handleTimestepClick i s).currentTimestep = some (ts.get ⟨i, hi⟩) := by
  have hcur : (handleTimestepClick i s).currentTimestep = i := by
    unfold handleTimestepClick
    split <;> rfl
  refine ⟨hcur, ?_, ?_, ?_, ?_⟩
  · rw [hcur]
    simp [List.getElem?_eq_getElem hi]
  · unfold handleTimestepClick
    split
    next => rfl
    next h => simpa using h
  · intro hp
    unfold handleTimestepClick
    split
    next => rfl
    next h => exact absurd hp h
  · rw [notifyOf, hcur]
    simp [List.getElem?_eq_getElem hi]

/-- C8 witness: selecting index 1 of the three-entry example sequence while
playing pauses and reads back the second entry. -/
theorem C8_select_index_reads_ith_witness :
    1 < exampleTimesteps.length ∧
      (handleTimestepClick 1 ⟨true, 0, true⟩).currentTimestep = 1 ∧
      notifyOf exampleTimesteps (handleTimestepClick 1 ⟨true, 0, true⟩).currentTimestep =
        some ⟨"waterdepth_20221024_003000", "00:30"⟩ := by
  have h := C8_select_index_reads_ith exampleTimesteps ⟨true, 0, true⟩ 1 (by decide)
  exact ⟨by decide, h.1, by simpa [exampleTimesteps] using h.2.2.2.2⟩

/-! ### Status-to-color mappings (app.jsx) -/

/-- `getStatusColor`: RGB triple per status.  The source lists
`operational` and `normal` as explicit cases, but they produce the same
green as the `default` branch, so they are folded into the final else. -/
def getStatusColor (status : String) : List Nat :=
  if status = "down" then [255, 0, 0]
  else if status = "warning" ∨ status = "high_load" then [255, 255, 0]
  else [0, 255, 0]

/-- `getStatusColorString`: the same mapping formatted as an `rgb(...)`
string (again `operational`/`normal` coincide with the default branch). -/
def getStatusColorString (status : String) : String :=
  if status = "down" then "rgb(255, 0, 0)"
  else if status = "warning" ∨ status = "high_load" then "rgb(255, 255, 0)"
  else "rgb(0, 255, 0)"

/-- Numeric value of a decimal digit character. -/
def digitVal (c : Char) : Nat := c.toNat - 48

/-- Accumulating scan extracting the maximal runs of decimal digits as
numbers: the model of `str.match(/\d+/g).map(Number)` used by the layer
color callbacks to parse `getStatusColorString` output back into numbers. -/
def digitRunsAux : List Char → Option Nat → List Nat
  | [], none => []
  | [], some n => [n]
  | c :: cs, none =>
      if c.isDigit then digitRunsAux cs (some (digitVal c))
      else digitRunsAux cs none
  | c :: cs, some n =>
      if c.isDigit then digitRunsAux cs (some (n * 10 + digitVal c))
      else n :: digitRunsAux cs none

/-- All maximal digit runs of a string, as numbers. -/
def matchDigitRuns (s : String) : List Nat :=
  digitRunsAux s.data none

/-- C9: the string-formatted color mapping refines the tuple mapping: for
every status, parsing the numeric components out of
`getStatusColorString status` (as the layer callbacks do with
`match(/\d+/g).map(Number)`) yields exactly `getStatusColor status`. -/
theorem C9_color_mappings_agree (status : String) :
    matchDigitRuns (getStatusColorString status) = getStatusColor status := by
  unfold getStatusColor getStatusColorString
  split
  · decide
  · split
    · decide
    · decide

/-! ### Junction status aggregation (getElectricalArcs) -/

/-- The incremental status update applied when a further cable occurrence
is folded into an existing junction point: an incoming `down` overrides
anything not already `down`; an incoming `warning` overrides
`operational`; otherwise the stored status is kept. -/
def updateStatus (existing incoming : String) : String :=
  if incoming = "down" ∧ existing ≠ "down" then "down"
  else if incoming = "warning" ∧ existing = "operational" then "warning"
  else existing

/-- The three statuses the aggregation precedence chain is about. -/
def isTri (s : String) : Prop :=
  s = "operational" ∨ s = "warning" ∨ s = "down"

instance (s : String) : Decidable (isTri s) := by
  unfold isTri
  infer_instance

/-- Worst status of a list under the precedence down > warning >
operational, defined purely by membership, hence order-independent. -/
def worstStatus (l : List String) : String :=
  if "down" ∈ l then "down"
  else if "warning" ∈ l then "warning"
  else "operational"

theorem worstStatus_perm {l₁ l₂ : List String} (h : l₁.Perm l₂) :
    worstStatus l₁ = worstStatus l₂ := by
  simp only [worstStatus, h.mem_iff]

theorem isTri_updateStatus {a b : String} (ha : isTri a) (hb : isTri b) :
    isTri (updateStatus a b) := by
  rcases ha with rfl | rfl | rfl <;> rcases hb with rfl | rfl | rfl <;> decide

theorem updateStatus_worst (a b : String) (t : List String)
    (ha : isTri a) (hb : isTri b) :
    worstStatus (updateStatus a b :: t) = worstStatus (a :: b :: t) := by
  rcases ha with rfl | rfl | rfl <;> rcases hb with rfl | rfl | rfl <;>
    simp [updateStatus, worstStatus, List.mem_cons]

theorem foldl_updateStatus_eq_worst :
    ∀ (l : List String) (init : String), isTri init → (∀ s ∈ l, isTri s) →
      List.foldl updateStatus init l = worstStatus (init :: l)
  | [], init, hinit, _ => by
      rcases hinit with rfl | rfl | rfl <;> decide
  | s :: t, init, hinit, hl => by
      have hs : isTri s := hl s (List.mem_cons_self s t)
      have ht : ∀ x ∈ t, isTri x := fun x hx => hl x (List.mem_cons_of_mem s hx)
      rw [List.foldl_cons,
        foldl_updateStatus_eq_worst t (updateStatus init s)
          (isTri_updateStatus hinit hs) ht]
      exact updateStatus_worst init s t hinit hs

/-- C2: when every status meeting at a junction is one of `operational`,
`warning`, `down`, the incremental fold of `updateStatus` (seeded with the
first arrival) equals the worst status of the whole multiset, and any
reordering of the arrivals yields the same aggregate — in particular
`{operational, warning, operational}` gives `warning`, and any multiset
containing `down` gives `down`. -/
theorem C2_junction_status_fold_is_worst (init : String) (l : List String)
    (init' : String) (l' : List String)
    (hinit : isTri init) (hl : ∀ s ∈ l, isTri s)
    (hperm : (init' :: l').Perm (init :: l)) :
    List.foldl updateStatus init l = worstStatus (init :: l) ∧
      List.foldl updateStatus init' l' = List.foldl updateStatus init l := by
  have h1 := foldl_updateStatus_eq_worst l init hinit hl
  have htri : ∀ s ∈ init' :: l', isTri s := by
    intro s hs
    rcases List.mem_cons.mp (hperm.mem_iff.mp hs) with rfl | h
    · exact hinit
    · exact hl s h
  have h2 := foldl_updateStatus_eq_worst l' init'
    (htri init' (List.mem_cons_self init' l'))
    (fun x hx => htri x (List.mem_cons_of_mem init' hx))
  exact ⟨h1, by rw [h2, h1, worstStatus_perm hperm]⟩

/-- C2 witness: `{operational, warning, operational}` aggregates to
`warning` and one concrete reordering folds to the same value. -/
theorem C2_junction_status_fold_is_worst_witness :
    isTri "operational" ∧
      List.foldl updateStatus "operational" ["warning", "operational"] =
        worstStatus ("operational" :: ["warning", "operational"]) ∧
      List.foldl updateStatus "warning" ["operational", "operational"] =
        List.foldl updateStatus "operational" ["warning", "operational"] := by
  have h := C2_junction_status_fold_is_worst "operational" ["warning", "operational"]
    "warning" ["operational", "operational"] (by decide) (by decide) (by decide)
  exact ⟨by decide, h.1, h.2⟩

/-! ### Junction grouping and electrical arcs (getElectricalArcs) -/

/-- A cable feature: `properties.status` and `geometry.coordinates`, the
planar waypoints (JS numbers modelled as exact rationals).  The remaining
feature properties (`cable_type`, voltages, ...) play no part in the
junction / particle logic and are omitted. -/
structure Cable where
  status : String
  coordinates : List (ℚ × ℚ)

/-- The junction key component `q.toFixed(6)`: the sign is kept separately
(JS prints `-0.000000` for tiny negatives, distinct from `0.000000`) and
the magnitude is rounded to 6 decimal digits with ties away from zero,
exactly as `toFixed` specifies (ties pick the larger magnitude). -/
def fix6 (q : ℚ) : Bool × ℤ :=
  if q < 0 then (true, round (-q * 1000000)) else (false, round (q * 1000000))

/-- The rounded-coordinate key type of the JS `Map`. -/
abbrev JKey := (Bool × ℤ) × (Bool × ℤ)

/-- The junction key of a coordinate:
`coord[0].toFixed(6) + "," + coord[1].toFixed(6)`. -/
def jkey (p : ℚ × ℚ) : JKey :=
  (fix6 p.1, fix6 p.2)

/-- One junction-table value: glow position (x, y, fixed height 500),
connection count, color and aggregate status. -/
structure JunctionPoint where
  position : ℚ × ℚ × ℚ
  count : Nat
  color : List Nat
  status : String
deriving DecidableEq, Repr

/-- Fresh junction-table entry for a first occurrence.  The source sets
`count: 0` and immediately runs `count++`, so the stored count is 1. -/
def initJunction (p : ℚ × ℚ) (status : String) : JunctionPoint :=
  { position := (p.1, p.2, 500), count := 1,
    color := getStatusColor status, status := status }

/-- Status/color update applied to an existing junction entry (the
`down`/`warning` override chain); its status component is `updateStatus`. -/
def updateJunction (jp : JunctionPoint) (status : String) : JunctionPoint :=
  if status = "down" ∧ jp.status ≠ "down" then
    { jp with status := "down", color := getStatusColor "down" }
  else if status = "warning" ∧ jp.status = "operational" then
    { jp with status := "warning", color := getStatusColor "warning" }
  else jp

/-- The count increment `junctionPoints.get(key).count++`. -/
def bumpCount (jp : JunctionPoint) : JunctionPoint :=
  { jp with count := jp.count + 1 }

/-- Insert one `(coordinate, status)` occurrence into the junction table.
The table models the JS `Map` in insertion order: an existing key is
updated in place, a fresh key is appended at the end. -/
def insertJunction (e : (ℚ × ℚ) × String) :
    List (JKey × JunctionPoint) → List (JKey × JunctionPoint)
  | [] => [(jkey e.1, initJunction e.1 e.2)]
  | kv :: rest =>
      if kv.1 = jkey e.1 then (kv.1, bumpCount (updateJunction kv.2 e.2)) :: rest
      else kv :: insertJunction e rest

/-- All `(coordinate, status)` occurrences contributed by the cable list,
in iteration order: every waypoint of every cable, paired with the
cable's status. -/
def junctionEntries (lines : List Cable) : List ((ℚ × ℚ) × String) :=
  lines.flatMap (fun c => c.coordinates.map (fun p => (p, c.status)))

/-- The junction table built by the nested `forEach` of
`getElectricalArcs`. -/
def buildJunctions (lines : List Cable) : List (JKey × JunctionPoint) :=
  (junctionEntries lines).foldl (fun m e => insertJunction e m) []

/-- An emitted glow point. -/
structure ElectricArc where
  position : ℚ × ℚ × ℚ
  intensity : ℚ
  color : List Nat
deriving DecidableEq, Repr

/-- `getElectricalArcs` (cable part): junction entries with more than one
connection and aggregate status other than `down` become glow points of
intensity `min(0.2 + count * 0.1, 0.8)`.  The early return for missing
cable data is handled by the caller-level guard, as in the source. -/
def getElectricalArcs (lines : List Cable) : List ElectricArc :=
  ((buildJunctions lines).filter
      (fun kv => 1 < kv.2.count ∧ kv.2.status ≠ "down")).map
    (fun kv =>
      { position := kv.2.position,
        intensity := min (0.2 + (kv.2.count : ℚ) * 0.1) 0.8,
        color := kv.2.color })

/-- Keys in first-occurrence (insertion) order. -/
def firstKeys (es : List ((ℚ × ℚ) × String)) : List JKey :=
  es.foldl (fun acc e => if jkey e.1 ∈ acc then acc else acc ++ [jkey e.1]) []

/-- Number of occurrences carrying key `k`. -/
def countKey (es : List ((ℚ × ℚ) × String)) (k : JKey) : Nat :=
  es.countP (fun e => decide (jkey e.1 = k))

/-- The statuses carried by the occurrences of key `k`, in arrival order. -/
def statusesKey (es : List ((ℚ × ℚ) × String)) (k : JKey) : List String :=
  (es.filter (fun e => decide (jkey e.1 = k))).map (fun e => e.2)

/-- The aggregate status at key `k`: the incremental `updateStatus` fold
over the statuses in arrival order, seeded with the first arrival. -/
def aggKey (es : List ((ℚ × ℚ) × String)) (k : JKey) : String :=
  match statusesKey es k with
  | [] => "operational"
  | s :: t => t.foldl updateStatus s

/-- The glow position at key `k`: the first occurrence's coordinate with
the fixed height 500. -/
def firstPos (es : List ((ℚ × ℚ) × String)) (k : JKey) : ℚ × ℚ × ℚ :=
  match es.find? (fun e => decide (jkey e.1 = k)) with
  | some e => (e.1.1, e.1.2, 500)
  | none => (0, 0, 500)

/-- The junction-table value key `k` carries after processing `es`. -/
def mkJunction (es : List ((ℚ × ℚ) × String)) (k : JKey) : JunctionPoint :=
  { position := firstPos es k, count := countKey es k,
    color := getStatusColor (aggKey es k), status := aggKey es k }

theorem firstKeys_append (es : List ((ℚ × ℚ) × String)) (e : (ℚ × ℚ) × String) :
    firstKeys (es ++ [e]) =
      if jkey e.1 ∈ firstKeys es then firstKeys es
      else firstKeys es ++ [jkey e.1] := by
  simp [firstKeys, List.foldl_append]

theorem mem_foldl_firstKeys (es : List ((ℚ × ℚ) × String)) :
    ∀ (acc : List JKey) (k : JKey),
      (k ∈ es.foldl (fun acc e => if jkey e.1 ∈ acc then acc else acc ++ [jkey e.1]) acc) ↔
        k ∈ acc ∨ ∃ e ∈ es, jkey e.1 = k := by
  induction es with
  | nil => intro acc k; simp
  | cons e es ih =>
      intro acc k
      rw [List.foldl_cons, ih]
      by_cases h : jkey e.1 ∈ acc
      · rw [if_pos h]
        constructor
        · rintro (hk | ⟨x, hx, hxk⟩)
          · exact Or.inl hk
          · exact Or.inr ⟨x, List.mem_cons_of_mem e hx, hxk⟩
        · rintro (hk | ⟨x, hx, hxk⟩)
          · exact Or.inl hk
          · rcases List.mem_cons.mp hx with heq | hx
            · exact Or.inl (by rw [← hxk, heq]; exact h)
            · exact Or.inr ⟨x, hx, hxk⟩
      · rw [if_neg h]
        constructor
        · rintro (hk | ⟨x, hx, hxk⟩)
          · rcases List.mem_append.mp hk with hk | hk
            · exact Or.inl hk
            · exact Or.inr ⟨e, List.mem_cons_self e es,
                (List.mem_singleton.mp hk).symm⟩
          · exact Or.inr ⟨x, List.mem_cons_of_mem e hx, hxk⟩
        · rintro (hk | ⟨x, hx, hxk⟩)
          · exact Or.inl (List.mem_append.mpr (Or.inl hk))
          · rcases List.mem_cons.mp hx with heq | hx
            · exact Or.inl (List.mem_append.mpr (Or.inr
                (List.mem_singleton.mpr (by rw [← hxk, heq]))))
            · exact Or.inr ⟨x, hx, hxk⟩

theorem mem_firstKeys (es : List ((ℚ × ℚ) × String)) (k : JKey) :
    k ∈ firstKeys es ↔ ∃ e ∈ es, jkey e.1 = k := by
  rw [firstKeys, mem_foldl_firstKeys]
  simp

theorem nodup_foldl_firstKeys (es : List ((ℚ × ℚ) × String)) :
    ∀ acc : List JKey, acc.Nodup →
      (es.foldl (fun acc e => if jkey e.1 ∈ acc then acc else acc ++ [jkey e.1]) acc).Nodup := by
  induction es with
  | nil => intro acc h; exact h
  | cons e es ih =>
      intro acc h
      rw [List.foldl_cons]
      by_cases hm : jkey e.1 ∈ acc
      · rw [if_pos hm]; exact ih acc h
      · rw [if_neg hm]
        exact ih _ (by simp [List.nodup_append, h, hm])

theorem nodup_firstKeys (es : List ((ℚ × ℚ) × String)) : (firstKeys es).Nodup :=
  nodup_foldl_firstKeys es [] List.nodup_nil

theorem insertJunction_fresh (e : (ℚ × ℚ) × String) :
    ∀ (m : List (JKey × JunctionPoint)), (∀ kv ∈ m, kv.1 ≠ jkey e.1) →
      insertJunction e m = m ++ [(jkey e.1, initJunction e.1 e.2)]
  | [], _ => rfl
  | kv :: m, h => by
      simp only [insertJunction]
      rw [if_neg (h kv (List.mem_cons_self kv m)),
        insertJunction_fresh e m (fun x hx => h x (List.mem_cons_of_mem kv hx)),
        List.cons_append]

theorem insertJunction_map_mem (e : (ℚ × ℚ) × String) (f : JKey → JunctionPoint) :
    ∀ (ks : List JKey), ks.Nodup → jkey e.1 ∈ ks →
      insertJunction e (ks.map (fun k => (k, f k))) =
        ks.map (fun k =>
          (k, if k = jkey e.1 then bumpCount (updateJunction (f k) e.2) else f k))
  | [], _, hk => absurd hk (List.not_mem_nil _)
  | a :: ks, hnd, hk => by
      rw [List.map_cons, List.map_cons]
      simp only [insertJunction]
      by_cases ha : a = jkey e.1
      · subst ha
        have hnin : jkey e.1 ∉ ks := (List.nodup_cons.mp hnd).1
        rw [if_pos rfl, if_pos rfl]
        congr 1
        exact List.map_congr_left fun k hkk =>
          by rw [if_neg (fun hkey : k = jkey e.1 => hnin (hkey ▸ hkk))]
      · have hk' : jkey e.1 ∈ ks := by
          rcases List.mem_cons.mp hk with heq | hmem
          · exact absurd heq.symm ha
          · exact hmem
        rw [if_neg ha, if_neg ha,
          insertJunction_map_mem e f ks (List.nodup_cons.mp hnd).2 hk']

attribute [ext] JunctionPoint

theorem updateJunction_status (jp : JunctionPoint) (s : String) :
    (updateJunction jp s).status = updateStatus jp.status s := by
  unfold updateJunction updateStatus
  split_ifs <;> rfl

theorem updateJunction_count (jp : JunctionPoint) (s : String) :
    (updateJunction jp s).count = jp.count := by
  unfold updateJunction
  split_ifs <;> rfl

theorem updateJunction_position (jp : JunctionPoint) (s : String) :
    (updateJunction jp s).position = jp.position := by
  unfold updateJunction
  split_ifs <;> rfl

theorem updateJunction_color (jp : JunctionPoint) (s : String)
    (h : jp.color = getStatusColor jp.status) :
    (updateJunction jp s).color = getStatusColor (updateJunction jp s).status := by
  unfold updateJunction
  split_ifs <;> first | rfl | exact h

theorem countKey_append (es : List ((ℚ × ℚ) × String)) (e : (ℚ × ℚ) × String)
    (k : JKey) :
    countKey (es ++ [e]) k = countKey es k + if jkey e.1 = k then 1 else 0 := by
  by_cases h : jkey e.1 = k <;> simp [countKey, List.countP_append, h]

theorem statusesKey_append (es : List ((ℚ × ℚ) × String)) (e : (ℚ × ℚ) × String)
    (k : JKey) :
    statusesKey (es ++ [e]) k =
      statusesKey es k ++ if jkey e.1 = k then [e.2] else [] := by
  by_cases h : jkey e.1 = k <;> simp [statusesKey, List.filter_append, h]

theorem countKey_eq_zero (es : List ((ℚ × ℚ) × String)) (k : JKey)
    (h : ∀ x ∈ es, jkey x.1 ≠ k) : countKey es k = 0 := by
  simp only [countKey, List.countP_eq_zero]
  intro x hx
  simpa using h x hx

theorem statusesKey_eq_nil (es : List ((ℚ × ℚ) × String)) (k : JKey)
    (h : ∀ x ∈ es, jkey x.1 ≠ k) : statusesKey es k = [] := by
  simp only [statusesKey, List.map_eq_nil_iff, List.filter_eq_nil_iff]
  intro x hx
  simpa using h x hx

theorem statusesKey_ne_nil_of_mem (es : List ((ℚ × ℚ) × String)) (k : JKey)
    (hk : k ∈ firstKeys es) : statusesKey es k ≠ [] := by
  obtain ⟨x, hx, hxk⟩ := (mem_firstKeys es k).mp hk
  have hmem : x.2 ∈ statusesKey es k :=
    List.mem_map.mpr ⟨x, List.mem_filter.mpr ⟨hx, by simpa using hxk⟩, rfl⟩
  exact List.ne_nil_of_mem hmem

theorem firstPos_append_of_ne (es : List ((ℚ × ℚ) × String))
    (e : (ℚ × ℚ) × String) (k : JKey) (h : jkey e.1 ≠ k) :
    firstPos (es ++ [e]) k = firstPos es k := by
  unfold firstPos
  rw [List.find?_append]
  have : List.find? (fun x => decide (jkey x.1 = k)) [e] = none := by
    simp [h]
  rw [this, Option.or_none]

theorem firstPos_append_of_mem (es : List ((ℚ × ℚ) × String))
    (e : (ℚ × ℚ) × String) (k : JKey) (hk : k ∈ firstKeys es) :
    firstPos (es ++ [e]) k = firstPos es k := by
  obtain ⟨x, hx, hxk⟩ := (mem_firstKeys es k).mp hk
  have hsome : (List.find? (fun x => decide (jkey x.1 = k)) es).isSome :=
    List.find?_isSome.mpr ⟨x, hx, by simpa using hxk⟩
  obtain ⟨y, hy⟩ := Option.isSome_iff_exists.mp hsome
  unfold firstPos
  rw [List.find?_append, hy]
  rfl

theorem aggKey_append_ne (es : List ((ℚ × ℚ) × String))
    (e : (ℚ × ℚ) × String) (k : JKey) (h : jkey e.1 ≠ k) :
    aggKey (es ++ [e]) k = aggKey es k := by
  unfold aggKey
  rw [statusesKey_append es e k, if_neg h, List.append_nil]

theorem mkJunction_append_ne (es : List ((ℚ × ℚ) × String))
    (e : (ℚ × ℚ) × String) (k : JKey) (h : jkey e.1 ≠ k) :
    mkJunction (es ++ [e]) k = mkJunction es k := by
  unfold mkJunction
  rw [countKey_append es e k, if_neg h, Nat.add_zero,
    firstPos_append_of_ne es e k h, aggKey_append_ne es e k h]

theorem aggKey_append_mem (es : List ((ℚ × ℚ) × String))
    (e : (ℚ × ℚ) × String) (hk : jkey e.1 ∈ firstKeys es) :
    aggKey (es ++ [e]) (jkey e.1) = updateStatus (aggKey es (jkey e.1)) e.2 := by
  obtain ⟨s, t, hst⟩ :=
    List.exists_cons_of_ne_nil (statusesKey_ne_nil_of_mem es (jkey e.1) hk)
  unfold aggKey
  rw [statusesKey_append es e (jkey e.1), if_pos rfl, hst]
  simp [List.foldl_append]

theorem mkJunction_append_mem (es : List ((ℚ × ℚ) × String))
    (e : (ℚ × ℚ) × String) (hk : jkey e.1 ∈ firstKeys es) :
    mkJunction (es ++ [e]) (jkey e.1) =
      bumpCount (updateJunction (mkJunction es (jkey e.1)) e.2) := by
  have hcolor : (mkJunction es (jkey e.1)).color =
      getStatusColor (mkJunction es (jkey e.1)).status := rfl
  calc mkJunction (es ++ [e]) (jkey e.1)
      = { position := firstPos (es ++ [e]) (jkey e.1),
          count := countKey (es ++ [e]) (jkey e.1),
          color := getStatusColor (aggKey (es ++ [e]) (jkey e.1)),
          status := aggKey (es ++ [e]) (jkey e.1) } := rfl
    _ = { position := firstPos es (jkey e.1),
          count := countKey es (jkey e.1) + 1,
          color := getStatusColor (updateStatus (aggKey es (jkey e.1)) e.2),
          status := updateStatus (aggKey es (jkey e.1)) e.2 } := by
          rw [firstPos_append_of_mem es e (jkey e.1) hk,
            countKey_append es e (jkey e.1), if_pos rfl,
            aggKey_append_mem es e hk]
    _ = bumpCount (updateJunction (mkJunction es (jkey e.1)) e.2) := by
          show _ =
            ({ position := (updateJunction (mkJunction es (jkey e.1)) e.2).position,
               count := (updateJunction (mkJunction es (jkey e.1)) e.2).count + 1,
               color := (updateJunction (mkJunction es (jkey e.1)) e.2).color,
               status := (updateJunction (mkJunction es (jkey e.1)) e.2).status } :
              JunctionPoint)
          rw [updateJunction_position, updateJunction_count,
            updateJunction_color _ _ hcolor, updateJunction_status]
          rfl

theorem mkJunction_append_fresh (es : List ((ℚ × ℚ) × String))
    (e : (ℚ × ℚ) × String) (hk : jkey e.1 ∉ firstKeys es) :
    mkJunction (es ++ [e]) (jkey e.1) = initJunction e.1 e.2 := by
  have hne : ∀ x ∈ es, jkey x.1 ≠ jkey e.1 := fun x hx hxe =>
    hk ((mem_firstKeys es (jkey e.1)).mpr ⟨x, hx, hxe⟩)
  have hcount : countKey es (jkey e.1) = 0 := countKey_eq_zero es (jkey e.1) hne
  have hstat : statusesKey es (jkey e.1) = [] := statusesKey_eq_nil es (jkey e.1) hne
  have hfind : List.find? (fun x => decide (jkey x.1 = jkey e.1)) es = none :=
    List.find?_eq_none.mpr (fun x hx => by simpa using hne x hx)
  have hpos : firstPos (es ++ [e]) (jkey e.1) = (e.1.1, e.1.2, 500) := by
    unfold firstPos
    rw [List.find?_append, hfind, Option.none_or]
    simp
  have hagg : aggKey (es ++ [e]) (jkey e.1) = e.2 := by
    unfold aggKey
    rw [statusesKey_append es e (jkey e.1), if_pos rfl, hstat, List.nil_append]
    rfl
  unfold mkJunction initJunction
  rw [hpos, hagg, countKey_append es e (jkey e.1), if_pos rfl, hcount]

theorem buildJunctions_eq (es : List ((ℚ × ℚ) × String)) :
    es.foldl (fun m e => insertJunction e m) [] =
      (firstKeys es).map (fun k => (k, mkJunction es k)) := by
  induction es using List.reverseRecOn with
  | nil => rfl
  | append_singleton es e ih =>
      rw [List.foldl_append, List.foldl_cons, List.foldl_nil, ih]
      by_cases hk : jkey e.1 ∈ firstKeys es
      · rw [insertJunction_map_mem e (mkJunction es) (firstKeys es)
          (nodup_firstKeys es) hk, firstKeys_append, if_pos hk]
        refine List.map_congr_left ?_
        intro k hkk
        by_cases hke : k = jkey e.1
        · subst hke
          rw [if_pos rfl, mkJunction_append_mem es e hk]
        · rw [if_neg hke,
            mkJunction_append_ne es e k (fun h => hke h.symm)]
      · have hfresh : ∀ kv ∈ (firstKeys es).map (fun k => (k, mkJunction es k)),
            kv.1 ≠ jkey e.1 := by
          intro kv hkv
          obtain ⟨k, hkmem, rfl⟩ := List.mem_map.mp hkv
          exact fun h => hk (h ▸ hkmem)
        rw [insertJunction_fresh e _ hfresh, firstKeys_append, if_neg hk,
          List.map_append]
        congr 1
        · refine List.map_congr_left ?_
          intro k hkk
          rw [mkJunction_append_ne es e k (fun h => hk (h ▸ hkk))]
        · rw [List.map_singleton, mkJunction_append_fresh es e hk]

/-- C6: `getElectricalArcs` emits a glow point exactly for those groups of
cable path points sharing a rounded (6 decimal digit) coordinate key whose
connection count exceeds 1 and whose aggregate status is not `down`, and
each glow point's intensity is `min(0.2 + 0.1 * count, 0.8)` for the
group's occurrence count (position and color likewise characterized). -/
theorem C6_arcs_characterization (lines : List Cable) :
    getElectricalArcs lines =
      ((firstKeys (junctionEntries lines)).filter
          (fun k => 1 < countKey (junctionEntries lines) k ∧
            aggKey (junctionEntries lines) k ≠ "down")).map
        (fun k =>
          { position := firstPos (junctionEntries lines) k,
            intensity := min (0.2 + (countKey (junctionEntries lines) k : ℚ) * 0.1) 0.8,
            color := getStatusColor (aggKey (junctionEntries lines) k) }) := by
  rw [getElectricalArcs, buildJunctions, buildJunctions_eq,
    List.filter_map, List.map_map]
  rfl

/-! ### Arc paths (createArcPath) -/

/-- The planar distance of a segment,
`Math.sqrt(Math.pow(end[0]-start[0], 2) + Math.pow(end[1]-start[1], 2))`. -/
noncomputable def planarDist (s e : ℚ × ℚ) : ℝ :=
  Real.sqrt (((e.1 : ℝ) - (s.1 : ℝ)) ^ 2 + ((e.2 : ℝ) - (s.2 : ℝ)) ^ 2)

/-- The sagged midpoint inserted between two consecutive waypoints:
`[midX, midY, 30 - min(distance * 0.05, 10)]`. -/
noncomputable def arcMid (s e : ℚ × ℚ) : ℝ × ℝ × ℝ :=
  (((s.1 : ℝ) + (e.1 : ℝ)) / 2, ((s.2 : ℝ) + (e.2 : ℝ)) / 2,
    30 - min (planarDist s e * 0.05) 10)

/-- The loop of `createArcPath`: for every consecutive pair, the start
point at base height 30 followed by the sagged midpoint; after the loop,
the final point at base height 30. -/
noncomputable def arcSegs : List (ℚ × ℚ) → List (ℝ × ℝ × ℝ)
  | [] => []
  | [p] => [((p.1 : ℝ), (p.2 : ℝ), 30)]
  | s :: e :: rest => ((s.1 : ℝ), (s.2 : ℝ), 30) :: arcMid s e :: arcSegs (e :: rest)

/-- `createArcPath`: fewer than 2 waypoints are returned unchanged (the
source returns the raw 2-D coordinate array in that branch; the embedding
pads the height with 0, a value no caller consumes since such a path has
no segment); otherwise the expanded sagged path. -/
noncomputable def createArcPath (coordinates : List (ℚ × ℚ)) : List (ℝ × ℝ × ℝ) :=
  if coordinates.length < 2 then
    coordinates.map (fun p => ((p.1 : ℝ), (p.2 : ℝ), 0))
  else arcSegs coordinates

theorem getElem?_cons_cons {α : Type} (a b : α) (t : List α) (n : Nat) :
    (a :: b :: t)[n + 2]? = t[n]? := by
  rw [show n + 2 = n + 1 + 1 from rfl, List.getElem?_cons_succ,
    List.getElem?_cons_succ]

theorem arcSegs_length : ∀ (l : List (ℚ × ℚ)), l ≠ [] →
    (arcSegs l).length = 2 * l.length - 1
  | [], h => absurd rfl h
  | [p], _ => rfl
  | s :: e :: rest, _ => by
      have ih := arcSegs_length (e :: rest) (by simp)
      simp only [arcSegs, List.length_cons] at ih ⊢
      omega

theorem arcSegs_pair : ∀ (pre : List (ℚ × ℚ)) (s e : ℚ × ℚ) (post : List (ℚ × ℚ)),
    (arcSegs (pre ++ s :: e :: post))[2 * pre.length]? =
        some ((s.1 : ℝ), (s.2 : ℝ), 30) ∧
      (arcSegs (pre ++ s :: e :: post))[2 * pre.length + 1]? = some (arcMid s e)
  | [], s, e, post => by
      constructor
      · simp [arcSegs]
      · simp [arcSegs]
  | q :: pre, s, e, post => by
      obtain ⟨r, tail, htail⟩ : ∃ r tail, pre ++ s :: e :: post = r :: tail := by
        cases pre with
        | nil => exact ⟨s, e :: post, rfl⟩
        | cons a l => exact ⟨a, l ++ s :: e :: post, rfl⟩
      have ih := arcSegs_pair pre s e post
      have hidx0 : 2 * (q :: pre).length = 2 * pre.length + 2 := by
        simp [List.length_cons]
        ring
      have hidx1 : 2 * (q :: pre).length + 1 = 2 * pre.length + 1 + 2 := by
        simp [List.length_cons]
        ring
      rw [List.cons_append, htail]
      constructor
      · rw [hidx0]
        show ((_ : ℝ × ℝ × ℝ) :: arcMid q r :: arcSegs (r :: tail))[2 * pre.length + 2]? = _
        rw [getElem?_cons_cons, ← htail]
        exact ih.1
      · rw [hidx1]
        show ((_ : ℝ × ℝ × ℝ) :: arcMid q r :: arcSegs (r :: tail))[2 * pre.length + 1 + 2]? = _
        rw [getElem?_cons_cons, ← htail]
        exact ih.2

/-- C5: `createArcPath` is a pure deterministic function (identical input
lists give identical outputs); for every consecutive input pair `s, e`
(the pair starting at input position `pre.length`) the output holds, right
after `s` at base height 30, the sagged midpoint whose coordinates are the
planar midpoint at height `30 - min(planarDist s e * 0.05, 10)`; and that
midpoint height is strictly below the base height 30 whenever the planar
distance is positive. -/
theorem C5_createArcPath_sagged_midpoints (coordinates pre post : List (ℚ × ℚ))
    (s e : ℚ × ℚ) (hdecomp : coordinates = pre ++ s :: e :: post) :
    (∀ cs : List (ℚ × ℚ), cs = coordinates →
        createArcPath cs = createArcPath coordinates) ∧
      (createArcPath coordinates)[2 * pre.length]? =
        some ((s.1 : ℝ), (s.2 : ℝ), 30) ∧
      (createArcPath coordinates)[2 * pre.length + 1]? =
        some (((s.1 : ℝ) + (e.1 : ℝ)) / 2, ((s.2 : ℝ) + (e.2 : ℝ)) / 2,
          30 - min (planarDist s e * 0.05) 10) ∧
      (0 < planarDist s e → 30 - min (planarDist s e * 0.05) 10 < 30) := by
  subst hdecomp
  have hlen : ¬ (pre ++ s :: e :: post).length < 2 := by
    simp [List.length_append]
    omega
  refine ⟨fun cs hcs => by rw [hcs], ?_, ?_, ?_⟩
  · rw [createArcPath, if_neg hlen]
    exact (arcSegs_pair pre s e post).1
  · rw [createArcPath, if_neg hlen]
    exact (arcSegs_pair pre s e post).2
  · intro hd
    have h1 : 0 < min (planarDist s e * 0.05) 10 :=
      lt_min (by positivity) (by norm_num)
    linarith

/-- C5 witness: the two-point cable `[(0,0), (3,4)]`: the midpoint entry
sits at output index 1 with the sag formula, and its height is strictly
below 30 (the planar distance is 5 > 0). -/
theorem C5_createArcPath_sagged_midpoints_witness :
    ([((0 : ℚ), (0 : ℚ)), (3, 4)] : List (ℚ × ℚ)) =
        [] ++ ((0 : ℚ), (0 : ℚ)) :: ((3 : ℚ), (4 : ℚ)) :: [] ∧
      (createArcPath [((0 : ℚ), (0 : ℚ)), (3, 4)])[2 * ([] : List (ℚ × ℚ)).length + 1]? =
        some ((((0 : ℚ) : ℝ) + ((3 : ℚ) : ℝ)) / 2, (((0 : ℚ) : ℝ) + ((4 : ℚ) : ℝ)) / 2,
          30 - min (planarDist (0, 0) (3, 4) * 0.05) 10) ∧
      (0 < planarDist (0, 0) (3, 4) →
        30 - min (planarDist (0, 0) (3, 4) * 0.05) 10 < 30) := by
  have h := C5_createArcPath_sagged_midpoints [((0 : ℚ), (0 : ℚ)), (3, 4)] []
    [] (0, 0) (3, 4) rfl
  exact ⟨rfl, h.2.2.1, h.2.2.2⟩

/-! ### Particles (generateParticles) -/

/-- A flow particle as pushed by `generateParticles`. -/
structure Particle where
  id : String
  lineIndex : Nat
  segmentIndex : Nat
  particleIndex : Nat
  startPoint : ℝ × ℝ × ℝ
  endPoint : ℝ × ℝ × ℝ
  phase : ℝ
  color : List Nat

/-- Particles contributed by one cable (`lineIndex` is its position in the
collection): none when the status is `down`; otherwise, for each of the
`arcPath.length - 1` consecutive segment pairs, `particleCount = 3`
particles with phases `(j / particleCount) * 2π` and the status color.
The segment endpoints are read with `getD`; the loop indices are in
bounds, so the default is never consumed. -/
noncomputable def particlesForCable (lineIndex : Nat) (c : Cable) : List Particle :=
  if c.status = "down" then []
  else
    (List.range ((createArcPath c.coordinates).length - 1)).flatMap (fun i =>
      (List.range 3).map (fun j =>
        { id := toString lineIndex ++ "-" ++ toString i ++ "-" ++ toString j,
          lineIndex := lineIndex, segmentIndex := i, particleIndex := j,
          startPoint := (createArcPath c.coordinates).getD i (0, 0, 0),
          endPoint := (createArcPath c.coordinates).getD (i + 1) (0, 0, 0),
          phase := ((j : ℝ) / 3) * (2 * Real.pi),
          color := getStatusColor c.status }))

/-- `generateParticles` over the cable collection (the `!powerLines` null
guard lives in the caller-level update effect, as in the source). -/
noncomputable def generateParticles (lines : List Cable) : List Particle :=
  lines.enum.flatMap (fun lc => particlesForCable lc.1 lc.2)

theorem length_particlesForCable (li : Nat) (c : Cable) (h : c.status ≠ "down") :
    (particlesForCable li c).length =
      ((createArcPath c.coordinates).length - 1) * 3 := by
  rw [particlesForCable, if_neg h, List.length_flatMap]
  simp [Function.comp_def, List.sum_replicate, Nat.mul_comm]

theorem particlesForCable_of_short (li : Nat) (c : Cable)
    (h2 : c.coordinates.length < 2) : particlesForCable li c = [] := by
  rw [particlesForCable]
  split
  · rfl
  · have harc : (createArcPath c.coordinates).length - 1 = 0 := by
      rw [createArcPath, if_pos h2, List.length_map]
      omega
    rw [harc]
    rfl

/-- C4: `generateParticles` iterates `particlesForCable` over the indexed
cables; a `down` cable contributes no particles; every other cable
contributes exactly `(pointCount - 1) * 3` particles, where `pointCount`
is the number of points of its arc path and 3 is the per-segment particle
count; a cable with fewer than 2 waypoints contributes no particles; and
every emitted particle's phase is `(j / 3) * 2π` for some `j < 3`, so the
three particles of each segment are evenly spaced in `[0, 2π)`. -/
theorem C4_generateParticles_counts (lines : List Cable) (li : Nat) (c : Cable) :
    generateParticles lines =
        lines.enum.flatMap (fun lc => particlesForCable lc.1 lc.2) ∧
      (c.status = "down" → particlesForCable li c = []) ∧
      (c.status ≠ "down" →
        (particlesForCable li c).length =
          ((createArcPath c.coordinates).length - 1) * 3) ∧
      (c.coordinates.length < 2 → particlesForCable li c = []) ∧
      (∀ p ∈ particlesForCable li c,
        ∃ j : Nat, j < 3 ∧ p.phase = ((j : ℝ) / 3) * (2 * Real.pi) ∧
          0 ≤ p.phase ∧ p.phase < 2 * Real.pi) := by
  refine ⟨rfl, ?_, length_particlesForCable li c,
    particlesForCable_of_short li c, ?_⟩
  · intro h
    rw [particlesForCable, if_pos h]
  · intro p hp
    rw [particlesForCable] at hp
    split at hp
    · cases hp
    · simp only [List.mem_flatMap, List.mem_map, List.mem_range] at hp
      obtain ⟨i, hi, j, hj, rfl⟩ := hp
      have hπ := Real.pi_pos
      refine ⟨j, hj, rfl, by positivity, ?_⟩
      have hj3 : (j : ℝ) / 3 < 1 := by
        rw [div_lt_one (by norm_num)]
        exact_mod_cast hj
      calc ((j : ℝ) / 3) * (2 * Real.pi) < 1 * (2 * Real.pi) :=
            mul_lt_mul_of_pos_right hj3 (by positivity)
        _ = 2 * Real.pi := one_mul _

/-- C4 witness: a two-waypoint `down` cable contributes nothing, and a
single-waypoint cable contributes nothing. -/
theorem C4_generateParticles_counts_witness :
    particlesForCable 0 ⟨"down", [(0, 0), (1, 1)]⟩ = [] ∧
      (([(0, 0)] : List (ℚ × ℚ)).length < 2 →
        particlesForCable 1 ⟨"operational", [(0, 0)]⟩ = []) :=
  ⟨(C4_generateParticles_counts [] 0 ⟨"down", [(0, 0), (1, 1)]⟩).2.1 rfl,
   (C4_generateParticles_counts [] 1 ⟨"operational", [(0, 0)]⟩).2.2.2.1⟩

/-! ### Particle positions per animation frame (getCurrentParticlePositions) -/

/-- `interpolatePosition`: componentwise linear interpolation
`start + (end - start) * t` of 3-D points. -/
noncomputable def interpolatePosition (s e : ℝ × ℝ × ℝ) (t : ℝ) : ℝ × ℝ × ℝ :=
  (s.1 + (e.1 - s.1) * t,
   s.2.1 + (e.2.1 - s.2.1) * t,
   s.2.2 + (e.2.2 - s.2.2) * t)

/-- The JS remainder `x % y`: `x - y * trunc(x / y)` (truncation toward
zero).  Every use below has a nonnegative dividend and positive divisor,
where this coincides with the flooring remainder. -/
noncomputable def jsMod (x y : ℝ) : ℝ :=
  if 0 ≤ x / y then x - y * (⌊x / y⌋ : ℝ) else x - y * (⌈x / y⌉ : ℝ)

/-- `t = ((timeScale + phase) % (2 * Math.PI)) / (2 * Math.PI)` with
`timeScale = animationFrame * 0.02`, from `getCurrentParticlePositions`. -/
noncomputable def particleT (frame : Nat) (phase : ℝ) : ℝ :=
  jsMod ((frame : ℝ) * 0.02 + phase) (2 * Real.pi) / (2 * Real.pi)

/-- The fade expression applied to the derived `t`:
`alpha = Math.sin(t * Math.PI) * 0.8 + 0.2`. -/
noncomputable def fadeAlpha (t : ℝ) : ℝ :=
  Real.sin (t * Real.pi) * 0.8 + 0.2

/-- One mapped entry of `getCurrentParticlePositions`: the interpolated
position of the particle at the frame-derived `t`, and its fade alpha. -/
noncomputable def positionAtFrame (p : Particle) (frame : Nat) : (ℝ × ℝ × ℝ) × ℝ :=
  (interpolatePosition p.startPoint p.endPoint (particleT frame p.phase),
   fadeAlpha (particleT frame p.phase))

/-- A concrete particle (phase 0) used for closed instances. -/
noncomputable def exampleParticle : Particle :=
  { id := "0-0-0", lineIndex := 0, segmentIndex := 0, particleIndex := 0,
    startPoint := (0, 0, 30), endPoint := (1, 0, 30), phase := 0,
    color := [0, 255, 0] }

theorem particleT_zero : particleT 0 (0 : ℝ) = 0 := by
  rw [particleT, jsMod]
  norm_num

/-- C3 counterexample: at frame 0 with phase 0 the derived `t` is 0, yet
the produced fade value is `0.2`, not `sin(t * π) = 0`: the emitted alpha
is `sin(t * π) * 0.8 + 0.2`, so it is not the claimed bare `sin(t * π)`. -/
theorem C3_fade_counterexample :
    (positionAtFrame exampleParticle 0).2 ≠
      Real.sin (particleT 0 exampleParticle.phase * Real.pi) := by
  have hphase : exampleParticle.phase = 0 := rfl
  show fadeAlpha (particleT 0 exampleParticle.phase) ≠ _
  rw [hphase, particleT_zero, fadeAlpha, zero_mul, Real.sin_zero]
  norm_num

/-- C3 amended: `positionAtFrame` derives
`t = ((frame * 0.02 + phase) % 2π) / 2π`, linearly interpolates
`startPoint → endPoint` by `t`, and produces the fade value
`sin(t·π) * 0.8 + 0.2` (not the bare factor `sin(t·π)`): it equals `0.2`
at `t = 0` and `t = 1`, and is maximal, namely `1`, at `t = 0.5`. -/
theorem C3_position_and_fade_amended (p : Particle) (frame : Nat) :
    positionAtFrame p frame =
        (interpolatePosition p.startPoint p.endPoint (particleT frame p.phase),
          fadeAlpha (particleT frame p.phase)) ∧
      fadeAlpha 0 = 0.2 ∧ fadeAlpha 1 = 0.2 ∧ fadeAlpha (1 / 2) = 1 ∧
      ∀ t : ℝ, fadeAlpha t ≤ fadeAlpha (1 / 2) := by
  refine ⟨rfl, ?_, ?_, ?_, ?_⟩
  · rw [fadeAlpha, zero_mul, Real.sin_zero]
    norm_num
  · rw [fadeAlpha, one_mul, Real.sin_pi]
    norm_num
  · rw [fadeAlpha, show (1 / 2 : ℝ) * Real.pi = Real.pi / 2 by ring,
      Real.sin_pi_div_two]
    norm_num
  · intro t
    rw [fadeAlpha, fadeAlpha, show (1 / 2 : ℝ) * Real.pi = Real.pi / 2 by ring,
      Real.sin_pi_div_two]
    nlinarith [Real.sin_le_one (t * Real.pi)]

/-! ### Particle regeneration effect (Root) -/

/-- The infrastructure payload: only the nullable
`hierarchical_power_cables` collection matters to the particle effect;
the four infrastructure levels feed rendering layers only. -/
structure InfrastructureData where
  hierarchical_power_cables : Option (List Cable)

/-- The particle-update effect of `Root`: particles are regenerated only
when infrastructure data carrying a cable collection is present and the
power layer is visible; in every other case the particle state is replaced
by the empty list. -/
noncomputable def updatePowerParticles (infra : Option InfrastructureData)
    (powerVisible : Bool) : List Particle :=
  match infra with
  | some d =>
    match d.hierarchical_power_cables with
    | some cables => if powerVisible then generateParticles cables else []
    | none => []
  | none => []

/-- C10: whenever the power layer is invisible, or no infrastructure data
is loaded, or the data carries no cable collection, the particle set is
replaced by the empty set; conversely a non-empty particle set can exist
only with the power layer visible and a cable collection present, and then
it is freshly recomputed from that collection. -/
theorem C10_particles_cleared (infra : Option InfrastructureData) (vis : Bool) :
    (vis = false → updatePowerParticles infra vis = []) ∧
      (infra = none → updatePowerParticles infra vis = []) ∧
      (∀ d, infra = some d → d.hierarchical_power_cables = none →
        updatePowerParticles infra vis = []) ∧
      (updatePowerParticles infra vis ≠ [] →
        vis = true ∧ ∃ d cables, infra = some d ∧
          d.hierarchical_power_cables = some cables ∧
          updatePowerParticles infra vis = generateParticles cables) := by
  refine ⟨?_, ?_, ?_, ?_⟩
  · rintro rfl
    rcases infra with _ | d
    · rfl
    · rcases hd : d.hierarchical_power_cables with _ | cables
      · simp [updatePowerParticles, hd]
      · simp [updatePowerParticles, hd]
  · rintro rfl
    rfl
  · rintro d rfl hd
    simp [updatePowerParticles, hd]
  · intro hne
    rcases infra with _ | d
    · exact absurd rfl hne
    · rcases hd : d.hierarchical_power_cables with _ | cables
      · exact absurd (by simp [updatePowerParticles, hd]) hne
      · rcases hv : vis with _ | _
        · exact absurd (by simp [updatePowerParticles, hd, hv]) hne
        · exact ⟨rfl, d, cables, rfl, hd, by simp [updatePowerParticles, hd]⟩

/-- C10 witness: with the power layer hidden the particle set is emptied
even though a cable collection is present. -/
theorem C10_particles_cleared_witness :
    (false : Bool) = false ∧
      updatePowerParticles (some ⟨some [⟨"operational", [(0, 0), (1, 1)]⟩]⟩) false = [] :=
  ⟨rfl, (C10_particles_cleared
    (some ⟨some [⟨"operational", [(0, 0), (1, 1)]⟩]⟩) false).1 rfl⟩
